import Mathlib

/-!
Verification development for the serial line-protocol session manager of
the distance_50Hz repository (files app.js, part_000, part_001): line
framing, line classification, the readiness/auto-start state machine, the
bounded time-series store with auto-scaling axis bounds, CSV export, and
command encoding.

Wire text is modelled over `List Char`.  JavaScript numbers that the
program only ever holds as non-negative integers (timestamps, millimetre
distances, capacities) are modelled as `Nat`; the axis arithmetic of
app.js, which divides by 10 and scales by 1.1, is modelled over `ℚ`.
DOM rendering, the Chart.js widget internals and the physical serial
transport are external collaborators and are represented only by the
values the core hands to them (status text, outbound wire lines, presence
flags for port/writer).
-/

namespace Distance50

/-- One recorded measurement: the object literal pushed by
`pushPoint(tMs, distMm)` in app.js / part_001 (part_000 uses field names
t and mm for the same payload). -/
structure Sample where
  tMs : Nat
  distMm : Nat
  deriving DecidableEq, Repr

/-! ### Time-series store (app.js pushPoint, part_000 addRecord) -/

/-- The record capacity MAX_POINTS of app.js and part_001. -/
def MAX_POINTS : Nat := 10000

/-- The records part of app.js pushPoint: push the new sample, then if the
length exceeds the capacity drop the oldest one (records.shift()). -/
def pushRecord (cap : Nat) (recs : List Sample) (p : Sample) : List Sample :=
  let r := recs ++ [p]
  if cap < r.length then r.drop 1 else r

/-- The records part of part_000 addRecord: push the new sample, then trim
to the most recent 5000 entries (records.splice(0, records.length - 5000)
when the length exceeds 5000). -/
def addRecord (recs : List Sample) (p : Sample) : List Sample :=
  let r := recs ++ [p]
  if 5000 < r.length then r.drop (r.length - 5000) else r

/-! ### niceCeil and the axis-bound updates -/

/-- Math.ceil(v / step) * step on naturals. -/
def ceilTo (v step : Nat) : Nat := ((v + step - 1) / step) * step

/-- The default stepCandidates parameter of niceCeil in part_000. -/
def stepCandidates : List Nat := [100, 200, 250, 500, 1000, 2000, 5000]

/-- The candidate loop of niceCeil in part_000: for each step it computes
n = Math.ceil(v / step) * step and returns n as soon as n ≥ v; if the loop
finishes, the source rounds by the last candidate (5000). -/
def niceCeilAux (v : Nat) : List Nat → Nat
  | [] => ceilTo v 5000
  | s :: rest => if v ≤ ceilTo v s then ceilTo v s else niceCeilAux v rest

/-- niceCeil of part_000 applied to its default candidate ladder. -/
def niceCeil (v : Nat) : Nat := niceCeilAux v stepCandidates

/-- The y-axis update of part_000 ensureAxes: when the new millimetre
value exceeds the current y.max, the maximum becomes niceCeil(mm). -/
def ensureAxesY (yMax mm : Nat) : Nat :=
  if yMax < mm then niceCeil mm else yMax

/-- The y-axis update of app.js updateChartAutoAxis on the current
suggestedMax and the latest centimetre value:
suggestedMax := max(curMax, max(100, Math.ceil(latestCm * 1.1))). -/
def updateAutoAxisY (curMax latestCm : ℚ) : ℚ :=
  max curMax (max 100 (⌈latestCm * (11 / 10)⌉ : ℤ))

/-! ### Rate input handling (btnStart / btnRate handlers) -/

/-- JavaScript Number(hzNum.value) followed by the default pattern x || 50:
NaN (modelled as none) and 0 are falsy and give 50. -/
def orDefault50 (x : Option ℚ) : ℚ :=
  match x with
  | none => 50
  | some v => if v = 0 then 50 else v

/-- hz as computed by the btnStart and btnRate handlers of part_000:
Math.min(Math.max(Number(hzNum.value) || 50, 1), 50). -/
def clampHz (x : Option ℚ) : ℚ := min (max (orDefault50 x) 1) 50

/-- hz as computed by the btnStart handler of app.js and part_001:
Number(hzNum.value) || 50, stored into lastHz with no clamping. -/
def appStartHz (x : Option ℚ) : ℚ := orDefault50 x

/-! ### Decimal rendering and reading of naturals -/

/-- The decimal digit character for d < 10. -/
def digitChar (d : Nat) : Char := Char.ofNat (48 + d)

/-- Decimal rendering of a natural number in accumulator form, as a JS
template literal renders a non-negative integer below 2^53. -/
def natToCharsAux (n : Nat) (acc : List Char) : List Char :=
  if n < 10 then digitChar n :: acc
  else natToCharsAux (n / 10) (digitChar (n % 10) :: acc)
  termination_by n
  decreasing_by exact Nat.div_lt_self (by omega) (by omega)

/-- Decimal rendering of a natural number. -/
def natToChars (n : Nat) : List Char := natToCharsAux n []

/-- Numeric value of a list of decimal digit characters (how Number reads
a digit string that is short enough to be exact). -/
def charsToNat (l : List Char) : Nat :=
  l.foldl (fun a c => a * 10 + (c.toNat - 48)) 0

/-! ### The data-line pattern of the reader loop -/

/-- The character class \d of the data-line regex. -/
def isDigitCh (c : Char) : Bool := '0' ≤ c && c ≤ '9'

/-- The character class \s of the data-line regex, on the ASCII whitespace
range that can occur on this wire. -/
def isSpaceCh (c : Char) : Bool :=
  c = ' ' || c = '\t' || c = '\x0b' || c = '\x0c' || c = '\r' || c = '\n'

/-- The data-line match of the reader loop, regex (two
leading digit runs around a comma with optional surrounding whitespace,
unanchored at the end so trailing characters are ignored): on a match the
two captured digit runs are read as numbers. -/
def parseData (l : List Char) : Option (Nat × Nat) :=
  let d1 := l.takeWhile isDigitCh
  if d1.isEmpty then none
  else
    match (l.dropWhile isDigitCh).dropWhile isSpaceCh with
    | ',' :: r =>
      let r2 := r.dropWhile isSpaceCh
      let d2 := r2.takeWhile isDigitCh
      if d2.isEmpty then none else some (charsToNat d1, charsToNat d2)
    | _ => none

/-- Head condition used to pin down maximal runs: the list is empty or its
first element fails p. -/
def headNotSat (p : Char → Bool) : List Char → Bool
  | [] => true
  | c :: _ => !p c

/-! ### The session state of app.js -/

/-- The mutable module state of app.js that the session logic reads and
writes: the port/writer handles reduced to presence flags, the reading
flag that keeps the reader loop alive, the readiness handshake flag, the
user intent wantRunning, the last requested rate, the recorded samples and
the status text shown to the user.  The Chart.js dataset mirrors records
point for point and its axis options are recomputed by the pure functions
above, so neither is duplicated here. -/
structure Session where
  hasPort : Bool
  hasWriter : Bool
  reading : Bool
  deviceReady : Bool
  wantRunning : Bool
  lastHz : Nat
  records : List Sample
  status : List Char
  deriving DecidableEq, Repr

/-- A session before any connection: no handles, no flags, lastHz at its
initial value 50, nothing recorded. -/
def freshSession : Session :=
  { hasPort := false, hasWriter := false, reading := false,
    deviceReady := false, wantRunning := false, lastHz := 50,
    records := [], status := [] }

/-- app.js sendLine: with no writer held it returns at once; otherwise the
line plus a newline is written to the wire.  No session field changes. -/
def sendLine (s : Session) (line : List Char) : Session × List (List Char) :=
  if s.hasWriter then (s, [line ++ ['\n']]) else (s, [])

namespace P000

/-- part_000 sendLine: with no writer held it throws the error
writer not ready; otherwise the line plus a newline is written. -/
def sendLine (hasWriter : Bool) (line : List Char) :
    Except (List Char) (List (List Char)) :=
  if hasWriter then .ok [line ++ ['\n']] else .error (("writer not ready").toList)

end P000

/-- The state-machine phases named by the specification, read off the
app.js flags: a session is live exactly while a port is held and the
reader loop is running; before the readiness handshake completes it is
awaiting the device, and afterwards the user intent wantRunning decides
between Running and Ready. -/
inductive Phase where
  | Disconnected
  | Connecting
  | AwaitingReady
  | Ready
  | Running
  | Stopped
  deriving DecidableEq, Repr

/-- Abstraction from the concrete app.js flags to the specification
phase. -/
def phase (s : Session) : Phase :=
  if !s.hasPort || !s.reading then .Disconnected
  else if !s.deviceReady then .AwaitingReady
  else if s.wantRunning then .Running
  else .Ready

/-- The per-line body of the app.js reader loop: boot noise is dropped;
lines starting with the hash mark drive the status machine, where the
line prefixed by READY marks the device ready and auto-starts when
wantRunning is set, START/STOP only update the status text, RESET clears
the store, and CAL OK / OFFSET report calibration; remaining lines are
matched against the data pattern and pushed into the store on success.
Returns the updated session and the outbound wire lines. -/
def processLine (s : Session) (line : List Char) : Session × List (List Char) :=
  if (("ESP-ROM:").toList).isPrefixOf line then (s, [])
  else if (("#").toList).isPrefixOf line then
    if (("# READY").toList).isPrefixOf line then
      let s1 := { s with deviceReady := true, status := ("READY").toList }
      if s1.wantRunning then
        sendLine s1 ((("START hz=").toList) ++ natToChars s1.lastHz)
      else (s1, [])
    else if (("# START").toList).isPrefixOf line then
      ({ s with status := (("RUNNING @ ").toList) ++ natToChars s.lastHz ++ ((" Hz").toList) }, [])
    else if (("# STOP").toList).isPrefixOf line then
      ({ s with status := ("STOPPED").toList }, [])
    else if (("# RESET").toList).isPrefixOf line then
      ({ s with records := [], status := ("READY").toList }, [])
    else if (("# CAL OK").toList).isPrefixOf line || (("# OFFSET").toList).isPrefixOf line then
      ({ s with status := ("CALIBRATED").toList }, [])
    else (s, [])
  else
    match parseData line with
    | some (t, d) =>
        ({ s with records := pushRecord MAX_POINTS s.records ⟨t, d⟩ }, [])
    | none => (s, [])

/-- The two awaited acquisition steps of btnConnect can each throw:
requestPort (permission denied, no device chosen) or port.open (device
busy, open refused); otherwise both succeed. -/
inductive ConnectOutcome where
  | requestFail
  | openFail
  | success
  deriving DecidableEq, Repr

/-- A click on Connect in app.js, modelling the try/catch of the handler:
on a requestPort failure nothing has been assigned and the catch shows the
alert; on an open failure the port variable has already been assigned, the
rest of the try block is skipped and the catch shows the alert; on success
the writer is taken, the flags are reset, the store and axes are cleared,
the reader loop is started and HELP is sent.  Returns the new session, the
outbound wire lines and whether the failure alert was shown. -/
def connectClick (s : Session) (o : ConnectOutcome) :
    Session × List (List Char) × Bool :=
  match o with
  | .requestFail => (s, [], true)
  | .openFail => ({ s with hasPort := true }, [], true)
  | .success =>
      let s1 := { s with
        hasPort := true, hasWriter := true, reading := true,
        deviceReady := false, wantRunning := false,
        records := [], status := ("CONNECTING…").toList }
      (s1, (sendLine s1 (("HELP").toList)).2, false)

/-! ### The line framer (class LineBreakTransformer) -/

/-- JavaScript String.prototype.split on the pattern of an optional
carriage return followed by a newline: scanning left to right, every
newline ends a segment, absorbing at most one carriage return standing
immediately before it.  The result always has one more segment than there
are separators, so it is never empty. -/
def jsSplit : List Char → List (List Char)
  | [] => [[]]
  | '\n' :: rest => [] :: jsSplit rest
  | '\r' :: '\n' :: rest => [] :: jsSplit rest
  | c :: rest =>
    match jsSplit rest with
    | [] => [[c]]
    | s :: ss => (c :: s) :: ss

/-- The last segment of a split result (lines.pop() in the source), with
the empty list as the default for an empty result. -/
def lastSeg : List (List Char) → List Char
  | [] => []
  | [s] => s
  | _ :: s :: ss => lastSeg (s :: ss)

/-- LineBreakTransformer.transform: append the chunk to the carried text,
split the whole on the separator pattern, keep the last segment as the new
carry and enqueue the remaining segments as complete lines.  Returns the
new carry and the emitted lines. -/
def transform (buf chunk : List Char) : List Char × List (List Char) :=
  let parts := jsSplit (buf ++ chunk)
  (lastSeg parts, parts.dropLast)

/-- LineBreakTransformer.flush: enqueue the carried text as one final line
exactly when it is non-empty. -/
def flushLines (buf : List Char) : List (List Char) :=
  if buf = [] then [] else [buf]

/-- Feed a list of chunks through transform, threading the carry and
concatenating the emitted lines. -/
def runFramer (buf : List Char) : List (List Char) → List Char × List (List Char)
  | [] => (buf, [])
  | c :: cs =>
    let p1 := transform buf c
    let p2 := runFramer p1.1 cs
    (p2.1, p1.2 ++ p2.2)

/-- The complete line sequence a stream of chunks produces: transform on
each chunk in order, then flush at stream end. -/
def framerLines (chunks : List (List Char)) : List (List Char) :=
  let p := runFramer [] chunks
  p.2 ++ flushLines p.1

/-- Input discipline of the wire protocol: every carriage return is
immediately followed by a newline. -/
def cleanCR : List Char → Bool
  | [] => true
  | '\r' :: '\n' :: rest => cleanCR rest
  | '\r' :: _ => false
  | _ :: rest => cleanCR rest

/-! ### CSV export (toCSV) and its re-parse -/

/-- One CSV row of app.js toCSV, the template line joining the two fields
with a comma. -/
def renderRow (r : Sample) : List Char :=
  natToChars r.tMs ++ ',' :: natToChars r.distMm

/-- rows.map(renderRow).join of a newline, as in app.js toCSV. -/
def joinRows : List Sample → List Char
  | [] => []
  | [r] => renderRow r
  | r :: r2 :: rest => renderRow r ++ '\n' :: joinRows (r2 :: rest)

/-- app.js toCSV: the header line, a newline, then the joined rows in
store order.  A pure function of the record list, mirroring that the
source only reads records. -/
def toCSV (rows : List Sample) : List Char :=
  (("t_ms,dist_mm\n").toList) ++ joinRows rows

/-- Read one CSV body line back through the data-line pattern of the
reader loop. -/
def parseCSVRow (l : List Char) : Option Sample :=
  match parseData l with
  | some (t, d) => some ⟨t, d⟩
  | none => none

/-- Re-parse exported CSV text: frame it into lines, drop the header line,
and read every line that matches the data pattern. -/
def reparseCSV (text : List Char) : List Sample :=
  ((jsSplit text).drop 1).filterMap parseCSVRow

/-! ## Basic lemmas -/

theorem ceilTo100_ge (v : Nat) : v ≤ ceilTo v 100 := by
  unfold ceilTo; omega

theorem niceCeil_eq_ceilTo100 (v : Nat) : niceCeil v = ceilTo v 100 := by
  unfold niceCeil stepCandidates
  simp only [niceCeilAux]
  rw [if_pos (ceilTo100_ge v)]

theorem pushRecord_length_le {cap : Nat} (recs : List Sample) (p : Sample)
    (h : recs.length ≤ cap) : (pushRecord cap recs p).length ≤ cap := by
  simp only [pushRecord]
  split
  · rename_i hlt
    simp only [List.length_append, List.length_cons, List.length_nil] at hlt
    simp only [List.length_drop, List.length_append, List.length_cons, List.length_nil]
    omega
  · rename_i hn
    simp only [List.length_append, List.length_cons, List.length_nil, not_lt] at hn ⊢
    omega

theorem foldl_pushRecord_length_le {cap : Nat} :
    ∀ (ps : List Sample) (recs : List Sample), recs.length ≤ cap →
      (ps.foldl (pushRecord cap) recs).length ≤ cap := by
  intro ps
  induction ps with
  | nil => intro recs h; simpa using h
  | cons p ps ih =>
      intro recs h
      simpa using ih (pushRecord cap recs p) (pushRecord_length_le recs p h)

theorem addRecord_length_le (recs : List Sample) (p : Sample) :
    (addRecord recs p).length ≤ 5000 := by
  simp only [addRecord]
  split
  · rename_i hlt
    simp only [List.length_append, List.length_cons, List.length_nil] at hlt
    simp only [List.length_drop, List.length_append, List.length_cons, List.length_nil]
    omega
  · rename_i hn
    simp only [List.length_append, List.length_cons, List.length_nil, not_lt] at hn ⊢
    omega

theorem foldl_addRecord_length_le :
    ∀ (ps : List Sample) (recs : List Sample), recs.length ≤ 5000 →
      (ps.foldl addRecord recs).length ≤ 5000 := by
  intro ps
  induction ps with
  | nil => intro recs h; simpa using h
  | cons p ps ih =>
      intro recs _
      simpa using ih (addRecord recs p) (addRecord_length_le recs p)

/-! ## Claim theorems: store, axes, rates, writes -/

/-- Claim C2: across any sequence of appends the store length never
exceeds the fixed capacity (10,000 for the app.js records, 5000 for the
part_000 records), and eviction is oldest-first: pushing samples 1..5
through a capacity-3 store leaves exactly samples 3, 4, 5 in order. -/
theorem store_bounded_and_fifo :
    (∀ ps : List Sample, (ps.foldl (pushRecord MAX_POINTS) []).length ≤ MAX_POINTS)
    ∧ (List.foldl (pushRecord 3) []
        [⟨1, 10⟩, ⟨2, 20⟩, ⟨3, 30⟩, ⟨4, 40⟩, ⟨5, 50⟩]
          = [⟨3, 30⟩, ⟨4, 40⟩, ⟨5, 50⟩])
    ∧ (∀ ps : List Sample, (ps.foldl addRecord []).length ≤ 5000) := by
  refine ⟨fun ps => ?_, by decide, fun ps => ?_⟩
  · exact foldl_pushRecord_length_le ps [] (by simp)
  · exact foldl_addRecord_length_le ps [] (by simp)

/-- Claim C5: the y-axis maximum is monotonically non-decreasing under
both variants of the axis update — app.js updateChartAutoAxis (where the
new suggestedMax is a max with the current one) and part_000 ensureAxes
(where y.max grows to niceCeil(mm) only when mm exceeds it) — and hence
non-decreasing across any whole sequence of appended samples. -/
theorem yMax_monotone :
    (∀ curMax latestCm : ℚ, curMax ≤ updateAutoAxisY curMax latestCm)
    ∧ (∀ yMax mm : Nat, yMax ≤ ensureAxesY yMax mm)
    ∧ (∀ (l : List ℚ) (curMax : ℚ), curMax ≤ l.foldl updateAutoAxisY curMax) := by
  have hstep : ∀ curMax latestCm : ℚ, curMax ≤ updateAutoAxisY curMax latestCm := by
    intro c l; exact le_max_left _ _
  refine ⟨hstep, fun yMax mm => ?_, fun l => ?_⟩
  · unfold ensureAxesY
    split
    · rename_i hlt
      calc yMax ≤ mm := le_of_lt hlt
        _ ≤ ceilTo mm 100 := ceilTo100_ge mm
        _ = niceCeil mm := (niceCeil_eq_ceilTo100 mm).symm
    · exact le_refl _
  · induction l with
    | nil => intro c; simp
    | cons x xs ih =>
        intro c
        calc c ≤ updateAutoAxisY c x := hstep c x
          _ ≤ (xs.foldl updateAutoAxisY (updateAutoAxisY c x)) := ih _
          _ = ((x :: xs).foldl updateAutoAxisY c) := by simp

/-- Claim C6 (code evaluation): the candidate loop of niceCeil always
returns at its first step, because Math.ceil(v/100)*100 ≥ v holds for
every natural v; so niceCeil rounds up to the next multiple of 100 and
never climbs the advertised ladder: niceCeil(201) = 300 (not 250) and
niceCeil(523) = 600 (not 1000). -/
theorem niceCeil_rounds_to_hundreds :
    (∀ v : Nat, niceCeil v = ceilTo v 100)
    ∧ niceCeil 201 = 300 ∧ niceCeil 523 = 600 ∧ niceCeil 0 = 0 :=
  ⟨niceCeil_eq_ceilTo100, by decide, by decide, by decide⟩

/-- Claim C7 (counterexample): in the app.js btnStart handler the rate is
taken as Number(hzNum.value) || 50 with no clamping, so the user value 999
is stored and encoded as is, violating the bound hz ≤ 50. -/
theorem unclamped_rate_passes_through :
    appStartHz (some 999) = 999 ∧ ¬ appStartHz (some 999) ≤ 50 := by
  constructor <;> norm_num [appStartHz, orDefault50]

/-- Claim C7 (amended): the part_000 btnStart/btnRate handlers clamp the
rate into [1, 50] before encoding, and absent or invalid input (NaN or the
falsy 0) defaults to 50; the app.js variant applies only the default, not
the clamp. -/
theorem rate_clamped_in_p000 :
    (∀ x : Option ℚ, 1 ≤ clampHz x ∧ clampHz x ≤ 50)
    ∧ clampHz none = 50 ∧ clampHz (some 0) = 50
    ∧ appStartHz none = 50 ∧ appStartHz (some 0) = 50 := by
  refine ⟨fun x => ⟨?_, ?_⟩, ?_, ?_, ?_, ?_⟩
  · exact le_min (le_max_right _ 1) (by norm_num)
  · exact min_le_right _ _
  · simp [clampHz, orDefault50]
  · simp [clampHz, orDefault50]
  · simp [appStartHz, orDefault50]
  · simp [appStartHz, orDefault50]

/-- Claim C9 (counterexample): the part_000 sendLine throws (rejects) with
writer not ready when no writer is held, instead of being a silent
no-op. -/
theorem p000_sendLine_throws :
    P000.sendLine false (("STOP").toList) = Except.error (("writer not ready").toList) := rfl

/-- Claim C9 (amended): with no writer held, app.js sendLine returns at
once — nothing reaches the wire and the session is unchanged — while the
part_000 sendLine throws writer not ready (also emitting nothing). -/
theorem sendLine_without_writer :
    (∀ (s : Session) (line : List Char), s.hasWriter = false →
      sendLine s line = (s, []))
    ∧ (∀ line : List Char,
      P000.sendLine false line = Except.error (("writer not ready").toList)) := by
  constructor
  · intro s line h
    simp [sendLine, h]
  · intro line
    simp [P000.sendLine]

/-- Witness for the amended claim C9 at a concrete session. -/
theorem sendLine_without_writer_witness :
    sendLine freshSession (("STOP").toList) = (freshSession, []) :=
  sendLine_without_writer.1 freshSession (("STOP").toList) rfl

/-! ## Claim theorems: state machine -/

/-- Claim C1: a session that holds the transport, is awaiting readiness
(reading, handshake not yet confirmed) and has the user intent recorded
(wantRunning with lastRequestedHz 25, the user clicked Start before the
device was ready) reacts to the meta line prefixed READY by emitting
exactly the one outbound line START hz=25 and moving to the Running
phase. -/
theorem ready_autostarts_once (s : Session)
    (hport : s.hasPort = true) (hwriter : s.hasWriter = true)
    (hreading : s.reading = true) (_hready : s.deviceReady = false)
    (hwant : s.wantRunning = true) (hhz : s.lastHz = 25) :
    (processLine s (("# READY").toList)).2 = [("START hz=25\n").toList]
    ∧ phase (processLine s (("# READY").toList)).1 = Phase.Running := by
  have h1 : (("ESP-ROM:").toList).isPrefixOf (("# READY").toList) = false := by decide
  have h2 : (("#").toList).isPrefixOf (("# READY").toList) = true := by decide
  have h3 : (("# READY").toList).isPrefixOf (("# READY").toList) = true := by decide
  have hn : natToChars 25 = ("25").toList := by
    simp [natToChars, natToCharsAux, digitChar]
  constructor
  · simp [processLine, h1, h2, h3, sendLine, hwriter, hwant, hhz, hn]
  · simp [processLine, h1, h2, h3, sendLine, phase, hport, hwriter, hreading, hwant, hhz]

/-- Witness for claim C1 at a concrete awaiting-ready session. -/
theorem ready_autostarts_once_witness :
    (processLine
      { freshSession with
        hasPort := true, hasWriter := true, reading := true,
        wantRunning := true, lastHz := 25 } (("# READY").toList)).2
      = [("START hz=25\n").toList]
    ∧ phase (processLine
      { freshSession with
        hasPort := true, hasWriter := true, reading := true,
        wantRunning := true, lastHz := 25 } (("# READY").toList)).1 = Phase.Running :=
  ready_autostarts_once _ rfl rfl rfl rfl rfl rfl

/-- Claim C8 (counterexample): when port.open fails the catch block of the
app.js btnConnect handler leaves the already-assigned port in the module
state — starting from a fresh session with no port, a failed open leaves
hasPort set. -/
theorem open_failure_retains_port :
    freshSession.hasPort = false
    ∧ ((connectClick freshSession ConnectOutcome.openFail).1).hasPort = true :=
  ⟨rfl, rfl⟩

/-- Claim C8 (amended): if connect() fails, the session phase stays
Disconnected, the writer and the reader loop are not acquired or started,
the store and the user intent are untouched, nothing is written to the
wire, and the failure is surfaced by the alert with no retry; a failure at
the request step retains nothing, while a failure at the open step retains
only the already-assigned port handle. -/
theorem connect_failure_leaves_disconnected (s : Session)
    (hp : s.hasPort = false) (hw : s.hasWriter = false) (hr : s.reading = false) :
    connectClick s ConnectOutcome.requestFail = (s, [], true)
    ∧ phase (connectClick s ConnectOutcome.requestFail).1 = Phase.Disconnected
    ∧ phase (connectClick s ConnectOutcome.openFail).1 = Phase.Disconnected
    ∧ ((connectClick s ConnectOutcome.openFail).1).hasWriter = false
    ∧ ((connectClick s ConnectOutcome.openFail).1).reading = false
    ∧ ((connectClick s ConnectOutcome.openFail).1).records = s.records
    ∧ ((connectClick s ConnectOutcome.openFail).1).wantRunning = s.wantRunning
    ∧ (connectClick s ConnectOutcome.openFail).2.1 = ([] : List (List Char))
    ∧ (connectClick s ConnectOutcome.openFail).2.2 = true := by
  refine ⟨rfl, ?_, ?_, ?_, ?_, ?_, ?_, rfl, rfl⟩ <;>
    simp [connectClick, phase, hp, hw, hr]

/-- Witness for the amended claim C8 at the fresh session. -/
theorem connect_failure_witness :
    connectClick freshSession ConnectOutcome.requestFail = (freshSession, [], true)
    ∧ phase (connectClick freshSession ConnectOutcome.requestFail).1 = Phase.Disconnected
    ∧ phase (connectClick freshSession ConnectOutcome.openFail).1 = Phase.Disconnected
    ∧ ((connectClick freshSession ConnectOutcome.openFail).1).hasWriter = false
    ∧ ((connectClick freshSession ConnectOutcome.openFail).1).reading = false
    ∧ ((connectClick freshSession ConnectOutcome.openFail).1).records = freshSession.records
    ∧ ((connectClick freshSession ConnectOutcome.openFail).1).wantRunning = freshSession.wantRunning
    ∧ (connectClick freshSession ConnectOutcome.openFail).2.1 = ([] : List (List Char))
    ∧ (connectClick freshSession ConnectOutcome.openFail).2.2 = true :=
  connect_failure_leaves_disconnected freshSession rfl rfl rfl

/-! ## Lemmas about the data-line pattern -/

theorem takeWhile_append_all {p : Char → Bool} {l r : List Char}
    (h : ∀ c ∈ l, p c = true) :
    (l ++ r).takeWhile p = l ++ r.takeWhile p := by
  induction l with
  | nil => simp
  | cons c t ih =>
      simp only [List.cons_append, List.takeWhile_cons]
      rw [if_pos (h c (by simp)), ih (fun x hx => h x (by simp [hx]))]

theorem dropWhile_append_all {p : Char → Bool} {l r : List Char}
    (h : ∀ c ∈ l, p c = true) :
    (l ++ r).dropWhile p = r.dropWhile p := by
  induction l with
  | nil => simp
  | cons c t ih =>
      simp only [List.cons_append, List.dropWhile_cons]
      rw [if_pos (h c (by simp))]
      exact ih (fun x hx => h x (by simp [hx]))

theorem takeWhile_eq_nil_of_headNotSat {p : Char → Bool} {l : List Char}
    (h : headNotSat p l = true) : l.takeWhile p = [] := by
  cases l with
  | nil => rfl
  | cons c t =>
      simp only [headNotSat, Bool.not_eq_true'] at h
      simp [List.takeWhile_cons, h]

theorem dropWhile_eq_self_of_headNotSat {p : Char → Bool} {l : List Char}
    (h : headNotSat p l = true) : l.dropWhile p = l := by
  cases l with
  | nil => rfl
  | cons c t =>
      simp only [headNotSat, Bool.not_eq_true'] at h
      simp [List.dropWhile_cons, h]

theorem space_not_digit {c : Char} (h : isSpaceCh c = true) : isDigitCh c = false := by
  simp only [isSpaceCh, Bool.or_eq_true, decide_eq_true_eq] at h
  rcases h with ((((h | h) | h) | h) | h) | h <;> subst h <;> decide

theorem digit_not_space {c : Char} (h : isDigitCh c = true) : isSpaceCh c = false := by
  cases hs : isSpaceCh c
  · rfl
  · exact absurd (space_not_digit hs) (by simp [h])

/-- The data-line pattern on an explicit decomposition: a non-empty digit
run, optional whitespace, a comma, optional whitespace, a non-empty digit
run, and an ignored tail that does not extend the second run. -/
theorem parseData_split (d1 w1 w2 d2 rest : List Char)
    (hd1 : d1 ≠ []) (hd2 : d2 ≠ [])
    (ha1 : ∀ c ∈ d1, isDigitCh c = true) (ha2 : ∀ c ∈ d2, isDigitCh c = true)
    (hw1 : ∀ c ∈ w1, isSpaceCh c = true) (hw2 : ∀ c ∈ w2, isSpaceCh c = true)
    (hrest : headNotSat isDigitCh rest = true) :
    parseData (d1 ++ (w1 ++ ',' :: (w2 ++ (d2 ++ rest))))
      = some (charsToNat d1, charsToNat d2) := by
  have hcomma : headNotSat isDigitCh (w1 ++ ',' :: (w2 ++ (d2 ++ rest))) = true := by
    cases w1 with
    | nil => simp only [List.nil_append, headNotSat]; decide
    | cons c t =>
        simp only [List.cons_append, headNotSat, Bool.not_eq_true']
        exact space_not_digit (hw1 c (by simp))
  have hd2head : headNotSat isSpaceCh (d2 ++ rest) = true := by
    cases d2 with
    | nil => exact absurd rfl hd2
    | cons c t =>
        simp only [List.cons_append, headNotSat, Bool.not_eq_true']
        exact digit_not_space (ha2 c (by simp))
  have ht1 : (d1 ++ (w1 ++ ',' :: (w2 ++ (d2 ++ rest)))).takeWhile isDigitCh = d1 := by
    rw [takeWhile_append_all ha1, takeWhile_eq_nil_of_headNotSat hcomma, List.append_nil]
  have hdw : ((d1 ++ (w1 ++ ',' :: (w2 ++ (d2 ++ rest)))).dropWhile isDigitCh).dropWhile isSpaceCh
      = ',' :: (w2 ++ (d2 ++ rest)) := by
    rw [dropWhile_append_all ha1, dropWhile_eq_self_of_headNotSat hcomma,
      dropWhile_append_all hw1]
    exact dropWhile_eq_self_of_headNotSat (by simp only [headNotSat]; decide)
  have hr2 : (w2 ++ (d2 ++ rest)).dropWhile isSpaceCh = d2 ++ rest := by
    rw [dropWhile_append_all hw2]
    exact dropWhile_eq_self_of_headNotSat hd2head
  have ht2 : (d2 ++ rest).takeWhile isDigitCh = d2 := by
    rw [takeWhile_append_all ha2, takeWhile_eq_nil_of_headNotSat hrest, List.append_nil]
  have he1 : d1.isEmpty = false := by
    cases d1 with
    | nil => exact absurd rfl hd1
    | cons c t => rfl
  have he2 : d2.isEmpty = false := by
    cases d2 with
    | nil => exact absurd rfl hd2
    | cons c t => rfl
  simp only [parseData, ht1, he1, Bool.false_eq_true, if_false, hdw, hr2, ht2, he2]

/-- Claim C10: every line whose prefix is two digit runs around a comma
(with optional surrounding whitespace) is accepted as Data from the two
leading integer fields alone, with any trailing characters after the
second run ignored; in particular the lines 1000,523 and 1000,523abc and
1000,523,999 all parse to the pair (1000, 523). -/
theorem data_line_prefix_match (d1 w1 w2 d2 rest : List Char)
    (hd1 : d1 ≠ []) (hd2 : d2 ≠ [])
    (ha1 : ∀ c ∈ d1, isDigitCh c = true) (ha2 : ∀ c ∈ d2, isDigitCh c = true)
    (hw1 : ∀ c ∈ w1, isSpaceCh c = true) (hw2 : ∀ c ∈ w2, isSpaceCh c = true)
    (hrest : headNotSat isDigitCh rest = true) :
    parseData (d1 ++ (w1 ++ ',' :: (w2 ++ (d2 ++ rest))))
      = some (charsToNat d1, charsToNat d2)
    ∧ parseData (("1000,523").toList) = some (1000, 523)
    ∧ parseData (("1000,523abc").toList) = some (1000, 523)
    ∧ parseData (("1000,523,999").toList) = some (1000, 523) :=
  ⟨parseData_split d1 w1 w2 d2 rest hd1 hd2 ha1 ha2 hw1 hw2 hrest,
    by decide, by decide, by decide⟩

/-- Witness for claim C10 on the decomposition of 1000,523abc. -/
theorem data_line_prefix_match_witness :
    parseData ((("1000").toList) ++ ([] ++ ',' :: ([] ++ ((("523").toList) ++ (("abc").toList)))))
      = some (charsToNat (("1000").toList), charsToNat (("523").toList))
    ∧ parseData (("1000,523").toList) = some (1000, 523)
    ∧ parseData (("1000,523abc").toList) = some (1000, 523)
    ∧ parseData (("1000,523,999").toList) = some (1000, 523) :=
  data_line_prefix_match (("1000").toList) [] [] (("523").toList) (("abc").toList)
    (by decide) (by decide) (by decide) (by decide) (by decide) (by decide) (by decide)


theorem jsSplit_ne_nil : ∀ l : List Char, jsSplit l ≠ [] := by
  intro l
  induction l using jsSplit.induct with
  | case1 => simp [jsSplit]
  | case2 rest ih => simp [jsSplit]
  | case3 rest ih => simp [jsSplit]
  | case4 c rest h1 h2 hnil ih => exact absurd hnil ih
  | case5 c rest h1 h2 s ss hcons ih =>
      rw [jsSplit.eq_4 c rest h1 h2, hcons]
      simp

theorem nl_not_mem_jsSplit : ∀ l : List Char, ∀ s ∈ jsSplit l, '\n' ∉ s := by
  intro l
  induction l using jsSplit.induct with
  | case1 => intro s hs; simp [jsSplit] at hs; simp [hs]
  | case2 rest ih =>
      intro s hs
      rw [jsSplit.eq_2] at hs
      rcases List.mem_cons.mp hs with h | h
      · simp [h]
      · exact ih s h
  | case3 rest ih =>
      intro s hs
      rw [jsSplit.eq_3] at hs
      rcases List.mem_cons.mp hs with h | h
      · simp [h]
      · exact ih s h
  | case4 c rest h1 h2 hnil ih => exact absurd hnil (jsSplit_ne_nil rest)
  | case5 c rest h1 h2 s0 ss hcons ih =>
      intro s hs
      rw [jsSplit.eq_4 c rest h1 h2, hcons] at hs
      rcases List.mem_cons.mp hs with h | h
      · subst h
        intro hmem
        rcases List.mem_cons.mp hmem with h | h
        · exact h1 h.symm
        · exact ih s0 (by rw [hcons]; exact List.mem_cons_self s0 ss) h
      · exact ih s (by rw [hcons]; exact List.mem_cons_of_mem s0 h)

theorem jsSplit_no_nl : ∀ l : List Char, '\n' ∉ l → jsSplit l = [l] := by
  intro l
  induction l with
  | nil => intro _; simp [jsSplit]
  | cons c t ih =>
      intro h
      have hc : (c = '\n' → False) := fun hc => h (by simp [hc])
      have h2 : ∀ r : List Char, c = '\x0d' → t = '\n' :: r → False := by
        intro r _ hr
        exact h (by simp [hr])
      rw [jsSplit.eq_4 c t hc h2, ih (fun hm => h (List.mem_cons_of_mem c hm))]

theorem jsSplit_singleton : ∀ l : List Char, ∀ s : List Char, jsSplit l = [s] → s = l := by
  intro l
  induction l using jsSplit.induct with
  | case1 => intro s hs; simp [jsSplit] at hs; simp [hs]
  | case2 rest ih =>
      intro s hs
      rw [jsSplit.eq_2] at hs
      exact absurd (List.cons_eq_cons.mp hs).2 (jsSplit_ne_nil rest)
  | case3 rest ih =>
      intro s hs
      rw [jsSplit.eq_3] at hs
      exact absurd (List.cons_eq_cons.mp hs).2 (jsSplit_ne_nil rest)
  | case4 c rest h1 h2 hnil ih => exact absurd hnil (jsSplit_ne_nil rest)
  | case5 c rest h1 h2 s0 ss hcons ih =>
      intro s hs
      rw [jsSplit.eq_4 c rest h1 h2, hcons] at hs
      obtain ⟨h3, h4⟩ := List.cons_eq_cons.mp hs
      subst h4
      rw [← h3, ih s0 hcons]



theorem lastSeg_cons_cons (a s : List Char) (ss : List (List Char)) :
    lastSeg (a :: s :: ss) = lastSeg (s :: ss) := by
  simp [lastSeg]

theorem lastSeg_append (l1 : List (List Char)) {l2 : List (List Char)} (h : l2 ≠ []) :
    lastSeg (l1 ++ l2) = lastSeg l2 := by
  induction l1 with
  | nil => rfl
  | cons a t ih =>
      cases ht : t ++ l2 with
      | nil =>
          rcases List.append_eq_nil.mp ht with ⟨_, h2⟩
          exact absurd h2 h
      | cons x xs =>
          rw [List.cons_append, ht, lastSeg_cons_cons, ← ht, ih]

theorem lastSeg_mem : ∀ l : List (List Char), l ≠ [] → lastSeg l ∈ l := by
  intro l
  induction l using lastSeg.induct with
  | case1 => intro h; exact absurd rfl h
  | case2 s => intro _; simp [lastSeg]
  | case3 a s ss ih =>
      intro _
      rw [lastSeg_cons_cons]
      exact List.mem_cons_of_mem a (ih (by simp))

theorem jsSplit_append : ∀ (a b : List Char),
    jsSplit (a ++ b) = (jsSplit a).dropLast ++ jsSplit (lastSeg (jsSplit a) ++ b) := by
  intro a b
  induction a using jsSplit.induct with
  | case1 => simp [jsSplit, lastSeg]
  | case2 rest ih =>
      obtain ⟨s, ss, hcons⟩ : ∃ s ss, jsSplit rest = s :: ss := by
        cases h : jsSplit rest with
        | nil => exact absurd h (jsSplit_ne_nil rest)
        | cons s ss => exact ⟨s, ss, rfl⟩
      rw [List.cons_append, jsSplit.eq_2, jsSplit.eq_2, ih, hcons,
        List.dropLast_cons₂, lastSeg_cons_cons, List.cons_append]
  | case3 rest ih =>
      obtain ⟨s, ss, hcons⟩ : ∃ s ss, jsSplit rest = s :: ss := by
        cases h : jsSplit rest with
        | nil => exact absurd h (jsSplit_ne_nil rest)
        | cons s ss => exact ⟨s, ss, rfl⟩
      rw [List.cons_append, List.cons_append, jsSplit.eq_3, jsSplit.eq_3, ih, hcons,
        List.dropLast_cons₂, lastSeg_cons_cons, List.cons_append]
  | case4 c rest h1 h2 hnil ih => exact absurd hnil (jsSplit_ne_nil rest)
  | case5 c rest h1 h2 s0 ss hcons ih =>
      cases rest with
      | nil =>
          rw [jsSplit.eq_4 c [] h1 h2]
          simp [jsSplit, lastSeg]
      | cons c2 rest2 =>
          have h2' : ∀ r : List Char, c = '\x0d' → (c2 :: rest2) ++ b = '\n' :: r → False := by
            intro r hc hr
            rw [List.cons_append] at hr
            exact h2 rest2 hc (by rw [(List.cons_eq_cons.mp hr).1])
          cases ss with
          | nil =>
              have hs0 : s0 = c2 :: rest2 := jsSplit_singleton (c2 :: rest2) s0 hcons
              rw [jsSplit.eq_4 c (c2 :: rest2) h1 h2, hcons, hs0]
              simp only [List.dropLast_single, List.nil_append, lastSeg]
          | cons t ts =>
              have hx : jsSplit ((c2 :: rest2) ++ b)
                  = s0 :: ((t :: ts).dropLast ++ jsSplit (lastSeg (t :: ts) ++ b)) := by
                rw [ih, hcons, List.dropLast_cons₂, lastSeg_cons_cons, List.cons_append]
              rw [List.cons_append, jsSplit.eq_4 c ((c2 :: rest2) ++ b) h1 h2', hx,
                jsSplit.eq_4 c (c2 :: rest2) h1 h2, hcons,
                List.dropLast_cons₂, lastSeg_cons_cons, List.cons_append]



theorem crClean_segments : ∀ l : List Char, cleanCR l = true → ∀ s ∈ jsSplit l, '\r' ∉ s := by
  intro l
  induction l using jsSplit.induct with
  | case1 => intro _ s hs; simp [jsSplit] at hs; simp [hs]
  | case2 rest ih =>
      intro hc s hs
      have hc' : cleanCR rest = true := by
        rw [cleanCR.eq_4 '\n' rest (by intro r h; exact absurd h (by decide)) (by decide)] at hc
        exact hc
      rw [jsSplit.eq_2] at hs
      rcases List.mem_cons.mp hs with h | h
      · simp [h]
      · exact ih hc' s h
  | case3 rest ih =>
      intro hc s hs
      have hc' : cleanCR rest = true := by
        rw [cleanCR.eq_2] at hc
        exact hc
      rw [jsSplit.eq_3] at hs
      rcases List.mem_cons.mp hs with h | h
      · simp [h]
      · exact ih hc' s h
  | case4 c rest h1 h2 hnil ih => exact absurd hnil (jsSplit_ne_nil rest)
  | case5 c rest h1 h2 s0 ss hcons ih =>
      intro hc s hs
      by_cases hcr : c = '\r'
      · subst hcr
        rw [cleanCR.eq_3 rest (fun r hr => h2 r rfl hr)] at hc
        exact absurd hc (by decide)
      · have hc' : cleanCR rest = true := by
          rw [cleanCR.eq_4 c rest (fun r h _ => hcr h) hcr] at hc
          exact hc
        rw [jsSplit.eq_4 c rest h1 h2, hcons] at hs
        rcases List.mem_cons.mp hs with h | h
        · subst h
          intro hmem
          rcases List.mem_cons.mp hmem with h | h
          · exact hcr h.symm
          · exact ih hc' s0 (by rw [hcons]; exact List.mem_cons_self s0 ss) h
        · exact ih hc' s (by rw [hcons]; exact List.mem_cons_of_mem s0 h)

theorem runFramer_eq : ∀ (cs : List (List Char)) (buf : List Char), '\n' ∉ buf →
    runFramer buf cs
      = (lastSeg (jsSplit (buf ++ cs.flatten)), (jsSplit (buf ++ cs.flatten)).dropLast) := by
  intro cs
  induction cs with
  | nil =>
      intro buf hb
      rw [List.flatten_nil, List.append_nil, jsSplit_no_nl buf hb]
      simp [runFramer, lastSeg]
  | cons c cs ih =>
      intro buf hb
      have hb1 : '\n' ∉ lastSeg (jsSplit (buf ++ c)) :=
        nl_not_mem_jsSplit (buf ++ c) _ (lastSeg_mem _ (jsSplit_ne_nil _))
      have key : jsSplit (buf ++ (c :: cs).flatten)
          = (jsSplit (buf ++ c)).dropLast
            ++ jsSplit (lastSeg (jsSplit (buf ++ c)) ++ cs.flatten) := by
        rw [List.flatten_cons, ← List.append_assoc]
        exact jsSplit_append (buf ++ c) cs.flatten
      simp only [runFramer, transform]
      rw [ih _ hb1, key, lastSeg_append _ (jsSplit_ne_nil _),
        List.dropLast_append_of_ne_nil _ (jsSplit_ne_nil _)]

theorem framerLines_eq (cs : List (List Char)) :
    framerLines cs
      = (jsSplit cs.flatten).dropLast ++ flushLines (lastSeg (jsSplit cs.flatten)) := by
  unfold framerLines
  rw [runFramer_eq cs [] (by simp)]
  simp

theorem mem_of_getLast?_eq_some {l : List Char} {a : Char} (h : l.getLast? = some a) :
    a ∈ l := by
  cases l with
  | nil => simp at h
  | cons x xs =>
      rw [List.getLast?_eq_getLast (x :: xs) (by simp)] at h
      exact Option.some_inj.mp h ▸ List.getLast_mem (by simp)



/-- Claim C3 (counterexample): the split pattern absorbs at most one
carriage return before a newline, so on the byte sequence with two
carriage returns before the newline the framer emits a line that still
ends with a carriage return. -/
theorem framer_emits_trailing_cr :
    framerLines [("a\r\r\n").toList] = [("a\r").toList]
    ∧ ((("a\r").toList).getLast? = some '\r') := by
  constructor
  · decide
  · decide

/-- Claim C3 (amended): for every byte sequence and every way of cutting
it into chunks, feeding the chunks (transform per chunk, flush at stream
end) yields exactly the lines of feeding the whole sequence at once, so
boundaries falling at chunk edges are handled; flush emits a final line
exactly when the carried partial-line text is non-empty; and provided
every carriage return of the input is immediately followed by a newline
(the wire discipline), no emitted line ends with a trailing carriage
return. -/
theorem framer_split_invariant (chunks : List (List Char)) :
    framerLines chunks = framerLines [chunks.flatten]
    ∧ (cleanCR chunks.flatten = true →
        ∀ l ∈ framerLines chunks, l.getLast? ≠ some '\r')
    ∧ (∀ buf : List Char, flushLines buf = if buf = [] then [] else [buf]) := by
  refine ⟨?_, ?_, fun buf => rfl⟩
  · rw [framerLines_eq chunks, framerLines_eq [chunks.flatten]]
    simp
  · intro hclean l hl
    have hmem : l ∈ jsSplit chunks.flatten := by
      rw [framerLines_eq] at hl
      rcases List.mem_append.mp hl with h | h
      · exact List.dropLast_subset _ h
      · unfold flushLines at h
        split at h
        · simp at h
        · rw [List.mem_singleton.mp h]
          exact lastSeg_mem _ (jsSplit_ne_nil _)
    have hcr : '\r' ∉ l := crClean_segments chunks.flatten hclean l hmem
    intro hlast
    exact hcr (mem_of_getLast?_eq_some hlast)

/-- Witness for the amended claim C3: a chunk cut right between a
carriage return and its newline. -/
theorem framer_split_invariant_witness :
    framerLines [("ab\r").toList, ("\ncd").toList]
      = framerLines [List.flatten [("ab\r").toList, ("\ncd").toList]]
    ∧ ∀ l ∈ framerLines [("ab\r").toList, ("\ncd").toList], l.getLast? ≠ some '\r' := by
  have h := framer_split_invariant [("ab\r").toList, ("\ncd").toList]
  exact ⟨h.1, h.2.1 (by decide)⟩



theorem digitChar_toNat {d : Nat} (h : d < 10) : (digitChar d).toNat = 48 + d := by
  interval_cases d <;> decide

theorem isDigitCh_digitChar {d : Nat} (h : d < 10) : isDigitCh (digitChar d) = true := by
  interval_cases d <;> decide

theorem natToCharsAux_append (n : Nat) :
    ∀ acc : List Char, natToCharsAux n acc = natToChars n ++ acc := by
  induction n using Nat.strong_induction_on with
  | _ n ih =>
      intro acc
      by_cases h : n < 10
      · rw [natToCharsAux, if_pos h, natToChars, natToCharsAux, if_pos h]
        rfl
      · have hd : n / 10 < n := Nat.div_lt_self (by omega) (by omega)
        have hrhs : natToChars n = natToChars (n / 10) ++ [digitChar (n % 10)] := by
          rw [natToChars, natToCharsAux, if_neg h, ih (n / 10) hd]
        rw [natToCharsAux, if_neg h, ih (n / 10) hd, hrhs, List.append_assoc]
        rfl

theorem natToChars_lt10 {n : Nat} (h : n < 10) : natToChars n = [digitChar n] := by
  rw [natToChars, natToCharsAux, if_pos h]

theorem natToChars_ge10 {n : Nat} (h : ¬ n < 10) :
    natToChars n = natToChars (n / 10) ++ [digitChar (n % 10)] := by
  rw [natToChars, natToCharsAux, if_neg h, natToCharsAux_append]

theorem charsToNat_natToChars : ∀ n : Nat, charsToNat (natToChars n) = n := by
  intro n
  induction n using Nat.strong_induction_on with
  | _ n ih =>
      by_cases h : n < 10
      · rw [natToChars_lt10 h]
        simp [charsToNat, digitChar_toNat h]
      · have hd : n / 10 < n := Nat.div_lt_self (by omega) (by omega)
        rw [natToChars_ge10 h]
        unfold charsToNat
        rw [List.foldl_append]
        have hmod : n % 10 < 10 := Nat.mod_lt _ (by omega)
        simp only [List.foldl_cons, List.foldl_nil, digitChar_toNat hmod]
        have := ih (n / 10) hd
        unfold charsToNat at this
        rw [this]
        omega

theorem natToChars_all_digits : ∀ n : Nat, ∀ c ∈ natToChars n, isDigitCh c = true := by
  intro n
  induction n using Nat.strong_induction_on with
  | _ n ih =>
      intro c hc
      by_cases h : n < 10
      · rw [natToChars_lt10 h] at hc
        rw [List.mem_singleton.mp hc]
        exact isDigitCh_digitChar h
      · rw [natToChars_ge10 h] at hc
        rcases List.mem_append.mp hc with hm | hm
        · exact ih (n / 10) (Nat.div_lt_self (by omega) (by omega)) c hm
        · rw [List.mem_singleton.mp hm]
          exact isDigitCh_digitChar (Nat.mod_lt _ (by omega))

theorem natToChars_ne_nil (n : Nat) : natToChars n ≠ [] := by
  by_cases h : n < 10
  · rw [natToChars_lt10 h]; simp
  · rw [natToChars_ge10 h]; simp

theorem not_mem_renderRow {c : Char} (hnd : isDigitCh c = false) (hnc : c ≠ ',')
    (r : Sample) : c ∉ renderRow r := by
  intro hmem
  unfold renderRow at hmem
  rcases List.mem_append.mp hmem with hm | hm
  · rw [natToChars_all_digits r.tMs c hm] at hnd
    exact absurd hnd (by simp)
  · rcases List.mem_cons.mp hm with hm | hm
    · exact hnc hm
    · rw [natToChars_all_digits r.distMm c hm] at hnd
      exact absurd hnd (by simp)

theorem jsSplit_push_front {a : List Char} (b : List Char)
    (hn : '\n' ∉ a) (hr : '\r' ∉ a) :
    jsSplit (a ++ '\n' :: b) = a :: jsSplit b := by
  induction a with
  | nil => rw [List.nil_append, jsSplit.eq_2]
  | cons c t ih =>
      have hcn : c ≠ '\n' := fun h => hn (by simp [h])
      have hcr : c ≠ '\r' := fun h => hr (by simp [h])
      rw [List.cons_append,
        jsSplit.eq_4 c (t ++ '\n' :: b) (fun h => hcn h) (fun r h _ => hcr h),
        ih (fun h => hn (List.mem_cons_of_mem c h)) (fun h => hr (List.mem_cons_of_mem c h))]

theorem jsSplit_joinRows : ∀ rows : List Sample, rows ≠ [] →
    jsSplit (joinRows rows) = rows.map renderRow := by
  intro rows
  induction rows with
  | nil => intro h; exact absurd rfl h
  | cons r rest ih =>
      intro _
      cases rest with
      | nil =>
          show jsSplit (renderRow r) = [renderRow r]
          exact jsSplit_no_nl _ (not_mem_renderRow (by decide) (by decide) r)
      | cons r2 rest2 =>
          show jsSplit (renderRow r ++ '\n' :: joinRows (r2 :: rest2)) = _
          rw [jsSplit_push_front _ (not_mem_renderRow (by decide) (by decide) r)
            (not_mem_renderRow (by decide) (by decide) r), ih (by simp)]
          simp

theorem parseCSVRow_render (r : Sample) : parseCSVRow (renderRow r) = some r := by
  have h := parseData_split (natToChars r.tMs) [] [] (natToChars r.distMm) []
    (natToChars_ne_nil _) (natToChars_ne_nil _)
    (natToChars_all_digits _) (natToChars_all_digits _)
    (by simp) (by simp) (by decide)
  simp only [List.nil_append, List.append_nil] at h
  unfold parseCSVRow renderRow
  rw [h, charsToNat_natToChars, charsToNat_natToChars]

theorem filterMap_parseCSVRow_map : ∀ rows : List Sample,
    (rows.map renderRow).filterMap parseCSVRow = rows := by
  intro rows
  induction rows with
  | nil => rfl
  | cons r rest ih =>
      rw [List.map_cons, List.filterMap_cons, parseCSVRow_render, ih]

theorem jsSplit_toCSV (rows : List Sample) :
    jsSplit (toCSV rows) = (("t_ms,dist_mm").toList) :: jsSplit (joinRows rows) := by
  have hsplit : toCSV rows = (("t_ms,dist_mm").toList) ++ '\n' :: joinRows rows := by
    unfold toCSV
    have : ("t_ms,dist_mm\n").toList = ("t_ms,dist_mm").toList ++ ['\n'] := by decide
    rw [this, List.append_assoc]
    rfl
  rw [hsplit, jsSplit_push_front _ (by decide) (by decide)]

/-- Claim C4: exporting produces the CSV header line followed by one
comma-joined row per retained sample in store order, and re-parsing the
exported text (framing it into lines, dropping the header, reading each
line with the reader-loop data pattern) yields back the identical ordered
sample list.  toCSV is a function of the record list alone — the source
only reads records — so the export mutates nothing by construction. -/
theorem csv_roundtrip (rows : List Sample) :
    reparseCSV (toCSV rows) = rows
    ∧ toCSV rows = (("t_ms,dist_mm\n").toList) ++ joinRows rows := by
  refine ⟨?_, rfl⟩
  unfold reparseCSV
  rw [jsSplit_toCSV, List.drop_succ_cons, List.drop_zero]
  cases rows with
  | nil =>
      show (jsSplit []).filterMap parseCSVRow = []
      decide
  | cons r rest =>
      rw [jsSplit_joinRows (r :: rest) (by simp), filterMap_parseCSVRow_map]


end Distance50
